import Mathlib

/-!
# Verification of `cinema_matcher.py`

A shallow embedding of `src/scripts-scraper/cinema_matcher.py` and proofs of
the specification's claims about it.

Strings are modelled as `List Char`.  Python's regex character classes `\w`,
`\s`, `\d` are modelled over their ASCII meaning (the repository's data is
ASCII slugs); `str.lower` is modelled by `Char.toLower` (ASCII letters).
Python `float` percentages are modelled by exact rationals `ℚ`.
-/

namespace Cinema

/-- Identifiers (film titles, script filename stems) are strings,
modelled as lists of characters. -/
abbrev Str := List Char

/-- ASCII model of Python's regex class `\d`. -/
def isDig (c : Char) : Bool :=
  48 ≤ c.toNat && c.toNat ≤ 57

/-- ASCII model of Python's regex class `\w`: letters, digits, underscore. -/
def isPyWord (c : Char) : Bool :=
  (65 ≤ c.toNat && c.toNat ≤ 90) || (97 ≤ c.toNat && c.toNat ≤ 122) ||
    (48 ≤ c.toNat && c.toNat ≤ 57) || c.toNat = 95

/-- ASCII model of Python's regex class `\s` (also used by `str.strip`):
space, tab, newline, vertical tab, form feed, carriage return. -/
def isPySpace (c : Char) : Bool :=
  c.toNat = 32 || c.toNat = 9 || c.toNat = 10 || c.toNat = 11 ||
    c.toNat = 12 || c.toNat = 13

/-- The class `[^\w\s]` removed by the second substitution keeps exactly
word characters and whitespace. -/
def isWordOrSpace (c : Char) : Bool := isPyWord c || isPySpace c

/-- Does a five-character string match `-\d{4}`?  Applied to the last five
characters, this is exactly when `re.search(r'-\d{4}$', title)` matches. -/
def isYearSuffix : Str → Bool
  | [h, d1, d2, d3, d4] => h = '-' && isDig d1 && isDig d2 && isDig d3 && isDig d4
  | _ => false

/-- `re.sub(r'-\d{4}$', '', title)`: remove a trailing hyphen followed by
exactly four digits, if present. -/
def stripYear (l : Str) : Str :=
  if isYearSuffix (l.drop (l.length - 5)) then l.take (l.length - 5) else l

/-- `str.strip()`: drop leading and trailing whitespace. -/
def pyStrip (l : Str) : Str :=
  ((l.dropWhile isPySpace).reverse.dropWhile isPySpace).reverse

/-- Helper view of `pyStrip`: removing the trailing whitespace run. -/
def rstrip (l : Str) : Str := (l.reverse.dropWhile isPySpace).reverse

/-- `normalize_title` from `cinema_matcher.py`: strip a `-YYYY` suffix,
drop every character that is not a word character or whitespace,
lowercase, and strip surrounding whitespace. -/
def normalize_title (l : Str) : Str :=
  pyStrip (((stripYear l).filter isWordOrSpace).map Char.toLower)

/-- Python `dict` update `d[k] = v`, preserving insertion order of keys:
an existing key keeps its position and gets the new value, a new key is
appended at the end. -/
def dinsert (k v : Str) : List (Str × Str) → List (Str × Str)
  | [] => [(k, v)]
  | (a, b) :: d => if a = k then (a, v) :: d else (a, b) :: dinsert k v d

/-- Python `d[k]` / `k in d` probe: the value stored under key `k`. -/
def dlookup (k : Str) : List (Str × Str) → Option Str
  | [] => none
  | (a, b) :: d => if a = k then some b else dlookup k d

/-- The dict comprehension `{normalize_title(x): x for x in l}`. -/
def buildIndex (l : List Str) : List (Str × Str) :=
  l.foldl (fun d s => dinsert (normalize_title s) s d) []

/-- One entry of the `matches` list:
`{'script': ..., 'film': ..., 'normalized': ...}`. -/
structure MatchRecord where
  script : Str
  film : Str
  normalized : Str
deriving DecidableEq, Repr

/-- The `stats` dictionary of the result. -/
structure Stats where
  total_films : Nat
  total_scripts : Nat
  matches_found : Nat
  match_percentage : ℚ
deriving DecidableEq, Repr

/-- The dictionary returned by `create_matching_index`. -/
structure MatchResult where
  «matches» : List MatchRecord
  unmatched_scripts : List Str
  unmatched_films : List Str
  stats : Stats
deriving DecidableEq, Repr

/-- The loop over `script_index.items()`: each script entry whose normalized
key occurs in the film index becomes a match record, the rest go to
`unmatched_scripts`, in iteration order. -/
def splitScripts (fi : List (Str × Str)) : List (Str × Str) → List MatchRecord × List Str
  | [] => ([], [])
  | (k, s) :: rest =>
    match dlookup k fi with
    | some f => (⟨s, f, k⟩ :: (splitScripts fi rest).1, (splitScripts fi rest).2)
    | none => ((splitScripts fi rest).1, s :: (splitScripts fi rest).2)

/-- `create_matching_index` from `cinema_matcher.py`, with the film and
script lists passed explicitly (the Python reads them from disk). -/
def create_matching_index (films scripts : List Str) : MatchResult :=
  let film_index := buildIndex films
  let script_index := buildIndex scripts
  let split := splitScripts film_index script_index
  { «matches» := split.1
    unmatched_scripts := split.2
    unmatched_films :=
      (film_index.filter (fun p => (dlookup p.1 script_index).isNone)).map Prod.snd
    stats :=
      { total_films := films.length
        total_scripts := scripts.length
        matches_found := split.1.length
        match_percentage :=
          if scripts.isEmpty then 0
          else ((split.1.length : ℚ) / (scripts.length : ℚ)) * 100 } }

/-- The JSON report written by `generate_report` (the `timestamp` field,
a filesystem path, is outside the model). -/
structure Report where
  summary : Stats
  «matches» : List MatchRecord
  sample_unmatched_scripts : List Str
  sample_unmatched_films : List Str
deriving DecidableEq, Repr

/-- `generate_report` from `cinema_matcher.py`: the written JSON keeps the
summary and the first ten entries of each list. -/
def generate_report (r : MatchResult) : Report :=
  { summary := r.stats
    «matches» := r.«matches».take 10
    sample_unmatched_scripts := r.unmatched_scripts.take 10
    sample_unmatched_films := r.unmatched_films.take 10 }

theorem pyStrip_eq_rstrip (l : Str) : pyStrip l = rstrip (l.dropWhile isPySpace) := rfl

theorem toNat_ofNat_valid {n : Nat} (h : n.isValidChar) : (Char.ofNat n).toNat = n := by
  simp [Char.ofNat, dif_pos h, Char.ofNatAux, Char.toNat, UInt32.toNat, BitVec.toNat_ofNatLt]

theorem toLower_toNat (c : Char) :
    (Char.toLower c).toNat =
      if 65 ≤ c.toNat ∧ c.toNat ≤ 90 then c.toNat + 32 else c.toNat := by
  unfold Char.toLower
  split
  · rw [if_pos (by omega)]
    exact toNat_ofNat_valid (Or.inl (by omega))
  · rw [if_neg (by omega)]

theorem toLower_eq_self {c : Char} (h : ¬(65 ≤ c.toNat ∧ c.toNat ≤ 90)) :
    Char.toLower c = c := by
  unfold Char.toLower
  rw [if_neg (by omega)]

theorem toLower_idem (c : Char) : (Char.toLower c).toLower = Char.toLower c := by
  apply toLower_eq_self
  rw [toLower_toNat]
  split <;> omega

theorem isWordOrSpace_toLower {c : Char} (h : isWordOrSpace c = true) :
    isWordOrSpace (Char.toLower c) = true := by
  simp only [isWordOrSpace, isPyWord, isPySpace, Bool.or_eq_true, Bool.and_eq_true,
    decide_eq_true_eq] at h ⊢
  rw [toLower_toNat]
  split <;> omega

theorem ne_dash_of_wordOrSpace {c : Char} (h : isWordOrSpace c = true) : c ≠ '-' := by
  intro hc
  subst hc
  exact absurd h (by decide)

theorem head?_dropWhile {p : Char → Bool} {l : Str} {c : Char}
    (h : (l.dropWhile p).head? = some c) : p c = false := by
  induction l with
  | nil => simp at h
  | cons a l ih =>
    rw [List.dropWhile_cons] at h
    split at h
    · exact ih h
    · simp at h
      subst h
      rename_i hpa
      simpa using hpa

theorem dropWhile_dropWhile (p : Char → Bool) (l : Str) :
    (l.dropWhile p).dropWhile p = l.dropWhile p := by
  induction l with
  | nil => rfl
  | cons a l ih =>
    rw [List.dropWhile_cons]
    split
    · exact ih
    · rw [List.dropWhile_cons, if_neg (by assumption)]

theorem dropWhile_decomp (p : Char → Bool) (l : Str) :
    ∃ t, l = t ++ l.dropWhile p := by
  induction l with
  | nil => exact ⟨[], rfl⟩
  | cons a l ih =>
    rw [List.dropWhile_cons]
    split
    · obtain ⟨t, ht⟩ := ih
      exact ⟨a :: t, by rw [List.cons_append, ← ht]⟩
    · exact ⟨[], rfl⟩

theorem dropWhile_eq_self_of_head {p : Char → Bool} {l : Str}
    (h : ∀ c, l.head? = some c → p c = false) : l.dropWhile p = l := by
  cases l with
  | nil => rfl
  | cons a l =>
    rw [List.dropWhile_cons, if_neg]
    simp [h a rfl]


theorem rstrip_idem (l : Str) : rstrip (rstrip l) = rstrip l := by
  unfold rstrip
  rw [List.reverse_reverse, dropWhile_dropWhile]

theorem rstrip_head?_cases (l : Str) : (rstrip l).head? = l.head? ∨ rstrip l = [] := by
  cases hD : rstrip l with
  | nil => exact Or.inr rfl
  | cons c r =>
    left
    obtain ⟨t, ht⟩ := dropWhile_decomp isPySpace l.reverse
    have h2 := congrArg List.reverse ht
    rw [List.reverse_reverse, List.reverse_append] at h2
    have h3 : l = (c :: r) ++ t.reverse := by rw [h2]; rw [← hD]; rfl
    rw [h3]
    simp

theorem pyStrip_idem (l : Str) : pyStrip (pyStrip l) = pyStrip l := by
  rw [pyStrip_eq_rstrip, pyStrip_eq_rstrip]
  have h1 : (rstrip (l.dropWhile isPySpace)).dropWhile isPySpace
      = rstrip (l.dropWhile isPySpace) := by
    rcases rstrip_head?_cases (l.dropWhile isPySpace) with hh | hnil
    · apply dropWhile_eq_self_of_head
      intro c hc
      rw [hh] at hc
      exact head?_dropWhile hc
    · rw [hnil]
      rfl
  rw [h1, rstrip_idem]

theorem mem_pyStrip {c : Char} {l : Str} (h : c ∈ pyStrip l) : c ∈ l := by
  unfold pyStrip at h
  rw [List.mem_reverse] at h
  have h2 := List.Sublist.subset (List.dropWhile_sublist isPySpace) h
  rw [List.mem_reverse] at h2
  exact List.Sublist.subset (List.dropWhile_sublist isPySpace) h2

theorem mem_normalize {c : Char} {l : Str} (hc : c ∈ normalize_title l) :
    isWordOrSpace c = true ∧ Char.toLower c = c := by
  unfold normalize_title at hc
  have hc' := mem_pyStrip hc
  rcases List.mem_map.1 hc' with ⟨b, hb, rfl⟩
  have hw : isWordOrSpace b = true := (List.mem_filter.1 hb).2
  exact ⟨isWordOrSpace_toLower hw, toLower_idem b⟩

theorem isYearSuffix_dash {m : Str} (h : isYearSuffix m = true) : '-' ∈ m := by
  unfold isYearSuffix at h
  split at h
  · simp only [Bool.and_eq_true, decide_eq_true_eq] at h
    rw [h.1.1.1.1]
    exact List.mem_cons_self _ _
  · simp at h

theorem stripYear_eq_self {l : Str} (h : ∀ c ∈ l, c ≠ '-') : stripYear l = l := by
  unfold stripYear
  rw [if_neg]
  intro hys
  have hd := isYearSuffix_dash hys
  have : ('-' : Char) ∈ l := List.mem_of_mem_drop hd
  exact h _ this rfl

theorem map_eq_self_of {f : Char → Char} {l : Str} (h : ∀ a ∈ l, f a = a) :
    l.map f = l := by
  have := List.map_congr_left (g := id) h
  rwa [List.map_id] at this

/-- Claim C3: normalization is idempotent — for every string `s`,
`normalize_title (normalize_title s) = normalize_title s`. -/
theorem C3_normalize_title_idempotent (l : Str) :
    normalize_title (normalize_title l) = normalize_title l := by
  have hmem : ∀ c ∈ normalize_title l, isWordOrSpace c = true ∧ Char.toLower c = c :=
    fun c hc => mem_normalize hc
  conv_lhs => rw [normalize_title]
  rw [stripYear_eq_self (fun c hc => ne_dash_of_wordOrSpace (hmem c hc).1)]
  rw [List.filter_eq_self.mpr (fun c hc => (hmem c hc).1)]
  rw [map_eq_self_of (fun c hc => (hmem c hc).2)]
  conv_lhs => rw [normalize_title]
  exact pyStrip_idem _

theorem dinsert_nil (k v : Str) : dinsert k v [] = [(k, v)] := rfl

theorem dinsert_cons (k v a b : Str) (d : List (Str × Str)) :
    dinsert k v ((a, b) :: d) =
      if a = k then (a, v) :: d else (a, b) :: dinsert k v d := rfl

theorem dlookup_nil (k : Str) : dlookup k [] = none := rfl

theorem dlookup_cons (k a b : Str) (d : List (Str × Str)) :
    dlookup k ((a, b) :: d) = if a = k then some b else dlookup k d := rfl

theorem dlookup_dinsert (k k' v : Str) (d : List (Str × Str)) :
    dlookup k (dinsert k' v d) = if k' = k then some v else dlookup k d := by
  induction d with
  | nil => rw [dinsert_nil, dlookup_cons, dlookup_nil]
  | cons p d ih =>
    obtain ⟨a, b⟩ := p
    rw [dinsert_cons]
    by_cases ha : a = k'
    · rw [if_pos ha]
      subst ha
      rw [dlookup_cons, dlookup_cons]
      by_cases hak : a = k
      · rw [if_pos hak, if_pos hak]
      · simp only [if_neg hak]
    · rw [if_neg ha, dlookup_cons]
      by_cases hak : a = k
      · have hk : ¬ k' = k := fun h => ha (hak.trans h.symm)
        rw [if_pos hak, if_neg hk, dlookup_cons, if_pos hak]
      · rw [if_neg hak, ih, dlookup_cons, if_neg hak]

theorem mem_dinsert {p : Str × Str} {k v : Str} {d : List (Str × Str)}
    (h : p ∈ dinsert k v d) : p = (k, v) ∨ p ∈ d := by
  induction d with
  | nil =>
    rw [dinsert_nil] at h
    simp at h
    exact Or.inl h
  | cons q d ih =>
    obtain ⟨a, b⟩ := q
    rw [dinsert_cons] at h
    split at h
    · rename_i ha
      subst ha
      rcases List.mem_cons.1 h with h1 | h1
      · exact Or.inl h1
      · exact Or.inr (List.mem_cons_of_mem _ h1)
    · rcases List.mem_cons.1 h with h1 | h1
      · exact Or.inr (h1 ▸ List.mem_cons_self _ _)
      · rcases ih h1 with h2 | h2
        · exact Or.inl h2
        · exact Or.inr (List.mem_cons_of_mem _ h2)

theorem keys_dinsert (k v : Str) (d : List (Str × Str)) :
    (dinsert k v d).map Prod.fst =
      if k ∈ d.map Prod.fst then d.map Prod.fst else d.map Prod.fst ++ [k] := by
  induction d with
  | nil => simp [dinsert_nil]
  | cons q d ih =>
    obtain ⟨a, b⟩ := q
    rw [dinsert_cons]
    by_cases ha : a = k
    · subst ha
      simp
    · rw [if_neg ha]
      simp only [List.map_cons, ih]
      by_cases hk : k ∈ d.map Prod.fst
      · rw [if_pos hk, if_pos]
        simp [hk]
      · rw [if_neg hk, if_neg]
        · simp
        · simp only [List.mem_cons]
          rintro (h1 | h1)
          · exact ha h1.symm
          · exact hk h1

theorem buildIndex_inv (P : List (Str × Str) → Prop)
    (hstep : ∀ d s, P d → P (dinsert (normalize_title s) s d))
    (l : List Str) (d₀ : List (Str × Str)) (h0 : P d₀) :
    P (l.foldl (fun d s => dinsert (normalize_title s) s d) d₀) := by
  induction l generalizing d₀ with
  | nil => exact h0
  | cons s l ih => exact ih _ (hstep _ _ h0)

theorem buildIndex_norm {l : List Str} {p : Str × Str} (h : p ∈ buildIndex l) :
    p.1 = normalize_title p.2 := by
  refine buildIndex_inv (fun d => ∀ q ∈ d, q.1 = normalize_title q.2) ?_ l [] (by simp) p h
  intro d s hd q hq
  rcases mem_dinsert hq with h1 | h1
  · rw [h1]
  · exact hd q h1

theorem buildIndex_keys_nodup (l : List Str) : ((buildIndex l).map Prod.fst).Nodup := by
  refine buildIndex_inv (fun d => (d.map Prod.fst).Nodup) ?_ l [] (by simp)
  intro d s hd
  rw [keys_dinsert]
  split
  · exact hd
  · rename_i hk
    simp [List.nodup_append, hd, hk]

theorem dinsert_length_le (k v : Str) (d : List (Str × Str)) :
    (dinsert k v d).length ≤ d.length + 1 := by
  induction d with
  | nil => simp [dinsert_nil]
  | cons q d ih =>
    obtain ⟨a, b⟩ := q
    rw [dinsert_cons]
    split
    · simp
    · simpa using Nat.add_le_add_right ih 1

theorem buildIndex_length_le (l : List Str) : (buildIndex l).length ≤ l.length := by
  have key : ∀ (l : List Str) (d₀ : List (Str × Str)),
      (l.foldl (fun d s => dinsert (normalize_title s) s d) d₀).length ≤
        d₀.length + l.length := by
    intro l
    induction l with
    | nil => simp
    | cons s l ih =>
      intro d₀
      calc (List.foldl _ (dinsert (normalize_title s) s d₀) l).length
          ≤ (dinsert (normalize_title s) s d₀).length + l.length := ih _
        _ ≤ (d₀.length + 1) + l.length :=
            Nat.add_le_add_right (dinsert_length_le _ _ _) _
        _ = d₀.length + (s :: l).length := by simp; omega
  simpa using key l []

theorem dlookup_buildIndex (l : List Str) (k : Str) :
    dlookup k (buildIndex l) = (l.filter (fun s => normalize_title s = k)).getLast? := by
  induction l using List.reverseRecOn with
  | nil => rfl
  | append_singleton l s ih =>
    rw [show buildIndex (l ++ [s]) =
          dinsert (normalize_title s) s (buildIndex l) from by
        simp [buildIndex, List.foldl_append],
      dlookup_dinsert, List.filter_append]
    by_cases hp : normalize_title s = k
    · rw [if_pos hp]
      simp [hp]
    · rw [if_neg hp, ih]
      simp [hp]

theorem dlookup_isSome_iff {k : Str} {d : List (Str × Str)} :
    (dlookup k d).isSome = true ↔ k ∈ d.map Prod.fst := by
  induction d with
  | nil => simp [dlookup_nil]
  | cons p d ih =>
    obtain ⟨a, b⟩ := p
    rw [dlookup_cons]
    by_cases ha : a = k
    · simp [ha]
    · simp only [if_neg ha, List.map_cons, List.mem_cons, ih]
      constructor
      · exact Or.inr
      · rintro (h1 | h1)
        · exact absurd h1.symm ha
        · exact h1

theorem dlookup_eq_some_mem {k v : Str} {d : List (Str × Str)}
    (h : dlookup k d = some v) : (k, v) ∈ d := by
  induction d with
  | nil => simp [dlookup_nil] at h
  | cons p d ih =>
    obtain ⟨a, b⟩ := p
    rw [dlookup_cons] at h
    split at h
    · rename_i ha
      subst ha
      obtain rfl : b = v := Option.some_injective _ h
      exact List.mem_cons_self _ _
    · exact List.mem_cons_of_mem _ (ih h)

theorem dlookup_eq_some_of_mem {k v : Str} {d : List (Str × Str)}
    (hd : (d.map Prod.fst).Nodup) (h : (k, v) ∈ d) : dlookup k d = some v := by
  induction d with
  | nil => simp at h
  | cons p d ih =>
    obtain ⟨a, b⟩ := p
    rw [dlookup_cons]
    have hd' : a ∉ d.map Prod.fst ∧ (d.map Prod.fst).Nodup :=
      List.nodup_cons.1 (by simpa using hd)
    rcases List.mem_cons.1 h with h1 | h1
    · rw [Prod.ext_iff] at h1
      obtain ⟨h1a, h1b⟩ := h1
      simp only at h1a h1b
      rw [if_pos h1a.symm, h1b]
    · by_cases ha : a = k
      · exfalso
        subst ha
        exact hd'.1 (List.mem_map.2 ⟨(a, v), h1, rfl⟩)
      · rw [if_neg ha]
        exact ih hd'.2 h1

theorem splitScripts_nil (fi : List (Str × Str)) : splitScripts fi [] = ([], []) := rfl

theorem splitScripts_cons_some {fi : List (Str × Str)} {k s f : Str}
    {rest : List (Str × Str)} (h : dlookup k fi = some f) :
    splitScripts fi ((k, s) :: rest) =
      (⟨s, f, k⟩ :: (splitScripts fi rest).1, (splitScripts fi rest).2) := by
  simp only [splitScripts, h]

theorem splitScripts_cons_none {fi : List (Str × Str)} {k s : Str}
    {rest : List (Str × Str)} (h : dlookup k fi = none) :
    splitScripts fi ((k, s) :: rest) =
      ((splitScripts fi rest).1, s :: (splitScripts fi rest).2) := by
  simp only [splitScripts, h]

theorem splitScripts_length (fi si : List (Str × Str)) :
    (splitScripts fi si).1.length + (splitScripts fi si).2.length = si.length := by
  induction si with
  | nil => rfl
  | cons p rest ih =>
    obtain ⟨k, s⟩ := p
    cases h : dlookup k fi with
    | some f =>
      rw [splitScripts_cons_some h]
      simp only [List.length_cons]
      omega
    | none =>
      rw [splitScripts_cons_none h]
      simp only [List.length_cons]
      omega

theorem splitScripts_countP_matches (fi si : List (Str × Str)) (q : MatchRecord → Bool) :
    (splitScripts fi si).1.countP q =
      si.countP (fun p =>
        match dlookup p.1 fi with
        | some f => q ⟨p.2, f, p.1⟩
        | none => false) := by
  induction si with
  | nil => rfl
  | cons p rest ih =>
    obtain ⟨k, s⟩ := p
    rw [List.countP_cons]
    cases h : dlookup k fi with
    | some f =>
      rw [splitScripts_cons_some h, List.countP_cons, ih]
    | none =>
      rw [splitScripts_cons_none h, ih]
      simp [h]

theorem splitScripts_countP_unmatched (fi si : List (Str × Str)) (q : Str → Bool) :
    (splitScripts fi si).2.countP q =
      si.countP (fun p => (dlookup p.1 fi).isNone && q p.2) := by
  induction si with
  | nil => rfl
  | cons p rest ih =>
    obtain ⟨k, s⟩ := p
    rw [List.countP_cons]
    cases h : dlookup k fi with
    | some f =>
      rw [splitScripts_cons_some h, ih]
      simp [h]
    | none =>
      rw [splitScripts_cons_none h, List.countP_cons, ih]
      simp [h]

theorem mem_splitScripts_matches {fi si : List (Str × Str)} {m : MatchRecord}
    (h : m ∈ (splitScripts fi si).1) :
    (m.normalized, m.script) ∈ si ∧ dlookup m.normalized fi = some m.film := by
  induction si with
  | nil => simp [splitScripts_nil] at h
  | cons p rest ih =>
    obtain ⟨k, s⟩ := p
    cases hl : dlookup k fi with
    | some f =>
      rw [splitScripts_cons_some hl] at h
      rcases List.mem_cons.1 h with h1 | h1
      · subst h1
        exact ⟨List.mem_cons_self _ _, hl⟩
      · obtain ⟨ha, hb⟩ := ih h1
        exact ⟨List.mem_cons_of_mem _ ha, hb⟩
    | none =>
      rw [splitScripts_cons_none hl] at h
      obtain ⟨ha, hb⟩ := ih h
      exact ⟨List.mem_cons_of_mem _ ha, hb⟩

theorem countP_eq_one_of_nodup {α : Type} [DecidableEq α] {l : List α} (hl : l.Nodup)
    {x : α} (hx : x ∈ l) : l.countP (fun y => y = x) = 1 := by
  induction l with
  | nil => simp at hx
  | cons a l ih =>
    rw [List.countP_cons]
    obtain ⟨ha, hl'⟩ := List.nodup_cons.1 hl
    rcases List.mem_cons.1 hx with h1 | h1
    · subst h1
      rw [if_pos (by simp), List.countP_eq_zero.2 (fun b hb => by
        simp only [decide_eq_true_eq]
        exact fun he => ha (he ▸ hb))]
    · have hax : ¬ a = x := fun he => ha (he ▸ h1)
      rw [if_neg (by simpa using hax), ih hl' h1]

theorem countP_mem_comm {A B : List Str} (hA : A.Nodup) (hB : B.Nodup) :
    A.countP (fun a => a ∈ B) = B.countP (fun b => b ∈ A) := by
  rw [List.countP_eq_length_filter, List.countP_eq_length_filter]
  rw [← List.toFinset_card_of_nodup (hA.filter _), ← List.toFinset_card_of_nodup (hB.filter _)]
  congr 1
  ext x
  simp only [List.mem_toFinset, List.mem_filter, decide_eq_true_eq]
  exact And.comm

theorem buildIndex_value_unique {l : List Str} {k v : Str} (h : (k, v) ∈ buildIndex l)
    {r : Str × Str} (hr : r ∈ buildIndex l) (hrv : r.2 = v) : r = (k, v) := by
  obtain ⟨r1, r2⟩ := r
  have h1 : r1 = normalize_title v := by
    have := buildIndex_norm hr
    simp only at this hrv
    rw [this, hrv]
  have h2 : k = normalize_title v := by simpa using buildIndex_norm h
  simp only at hrv
  rw [hrv, h1, ← h2]

theorem mem_keys_buildIndex {l : List Str} {k : Str} :
    k ∈ (buildIndex l).map Prod.fst ↔ k ∈ l.map normalize_title := by
  rw [← dlookup_isSome_iff, dlookup_buildIndex]
  rw [List.getLast?_isSome]
  constructor
  · intro h
    rcases List.exists_mem_of_ne_nil _ h with ⟨s, hs⟩
    obtain ⟨hs1, hs2⟩ := List.mem_filter.1 hs
    exact List.mem_map.2 ⟨s, hs1, by simpa using hs2⟩
  · intro h
    rcases List.mem_map.1 h with ⟨s, hs, rfl⟩
    intro hnil
    have := List.filter_eq_nil_iff.1 hnil s hs
    simp at this

theorem matches_length_eq (fi si : List (Str × Str)) :
    (splitScripts fi si).1.length = si.countP (fun p => (dlookup p.1 fi).isSome) := by
  have h := splitScripts_countP_matches fi si (fun _ => true)
  rw [List.countP_true] at h
  rw [h]
  apply List.countP_congr
  intro p hp
  cases hl : dlookup p.1 fi <;> simp [hl]

theorem cmi_matches (films scripts : List Str) :
    (create_matching_index films scripts).«matches» =
      (splitScripts (buildIndex films) (buildIndex scripts)).1 := rfl

theorem cmi_unmatched_scripts (films scripts : List Str) :
    (create_matching_index films scripts).unmatched_scripts =
      (splitScripts (buildIndex films) (buildIndex scripts)).2 := rfl

theorem cmi_unmatched_films (films scripts : List Str) :
    (create_matching_index films scripts).unmatched_films =
      ((buildIndex films).filter
        (fun p => (dlookup p.1 (buildIndex scripts)).isNone)).map Prod.snd := rfl

theorem cmi_total_films (films scripts : List Str) :
    (create_matching_index films scripts).stats.total_films = films.length := rfl

theorem cmi_total_scripts (films scripts : List Str) :
    (create_matching_index films scripts).stats.total_scripts = scripts.length := rfl

theorem cmi_matches_found (films scripts : List Str) :
    (create_matching_index films scripts).stats.matches_found =
      (splitScripts (buildIndex films) (buildIndex scripts)).1.length := rfl

theorem cmi_match_percentage (films scripts : List Str) :
    (create_matching_index films scripts).stats.match_percentage =
      if scripts.isEmpty then 0
      else (((splitScripts (buildIndex films) (buildIndex scripts)).1.length : ℚ) /
        (scripts.length : ℚ)) * 100 := rfl

/-- Claim C2: for every input, the number of match records plus the number of
unmatched scripts equals the size of the script lookup mapping, which is the
number of distinct normalized script keys. -/
theorem C2_script_counting_identity (films scripts : List Str) :
    (create_matching_index films scripts).«matches».length +
        (create_matching_index films scripts).unmatched_scripts.length =
      (buildIndex scripts).length ∧
    (buildIndex scripts).length = (scripts.map normalize_title).toFinset.card := by
  constructor
  · rw [cmi_matches, cmi_unmatched_scripts]
    exact splitScripts_length _ _
  · have hnd := buildIndex_keys_nodup scripts
    have h1 : ((buildIndex scripts).map Prod.fst).toFinset =
        (scripts.map normalize_title).toFinset := by
      ext k
      simp only [List.mem_toFinset]
      exact mem_keys_buildIndex
    calc (buildIndex scripts).length
        = ((buildIndex scripts).map Prod.fst).length := (List.length_map _ _).symm
      _ = ((buildIndex scripts).map Prod.fst).toFinset.card :=
          (List.toFinset_card_of_nodup hnd).symm
      _ = (scripts.map normalize_title).toFinset.card := by rw [h1]

/-- Claim C4: with an empty script list the match percentage is `0` (the
division is guarded, so no division error can occur); with a non-empty script
list it equals `matches_found / total_scripts * 100`. -/
theorem C4_match_percentage_division_guard (films scripts : List Str) :
    (scripts = [] → (create_matching_index films scripts).stats.match_percentage = 0) ∧
    (scripts ≠ [] → (create_matching_index films scripts).stats.match_percentage =
      ((create_matching_index films scripts).stats.matches_found : ℚ) /
        ((create_matching_index films scripts).stats.total_scripts : ℚ) * 100) := by
  constructor
  · intro h
    subst h
    rfl
  · intro h
    rw [cmi_match_percentage, if_neg (by simpa using h), cmi_matches_found,
      cmi_total_scripts]

/-- Claim C5: the written report's `matches`, `sample_unmatched_scripts` and
`sample_unmatched_films` arrays each hold at most ten entries, whatever the
input size. -/
theorem C5_report_arrays_capped (films scripts : List Str) :
    (generate_report (create_matching_index films scripts)).«matches».length ≤ 10 ∧
    (generate_report (create_matching_index films scripts)).sample_unmatched_scripts.length ≤ 10 ∧
    (generate_report (create_matching_index films scripts)).sample_unmatched_films.length ≤ 10 :=
  ⟨List.length_take_le _ _, List.length_take_le _ _, List.length_take_le _ _⟩

/-- Claim C6: on films `["Matrix-1999"]` and scripts `["matrix"]` the matcher
produces exactly the match record
`{script: "matrix", film: "Matrix-1999", normalized: "matrix"}` and no
unmatched scripts or films. -/
theorem C6_matrix_example :
    (create_matching_index ["Matrix-1999".toList] ["matrix".toList]).«matches» =
      [⟨"matrix".toList, "Matrix-1999".toList, "matrix".toList⟩] ∧
    (create_matching_index ["Matrix-1999".toList] ["matrix".toList]).unmatched_scripts = [] ∧
    (create_matching_index ["Matrix-1999".toList] ["matrix".toList]).unmatched_films = [] := by
  refine ⟨?_, ?_, ?_⟩ <;> rfl

/-- Claim C7: the lookup mapping built from a list associates each normalized
key with the last identifier in the list that normalizes to it, so on a
collision the identifier occurring later in iteration order wins. -/
theorem C7_last_collision_wins (l : List Str) (k : Str) :
    dlookup k (buildIndex l) = (l.filter (fun s => normalize_title s = k)).getLast? :=
  dlookup_buildIndex l k

/-- Claim C8: every emitted match record's `normalized` field equals
`normalize_title` of its `script` field and of its `film` field, and that key
is present in both lookup mappings. -/
theorem C8_match_record_consistency (films scripts : List Str) (m : MatchRecord)
    (hm : m ∈ (create_matching_index films scripts).«matches») :
    m.normalized = normalize_title m.script ∧
    m.normalized = normalize_title m.film ∧
    (dlookup m.normalized (buildIndex scripts)).isSome = true ∧
    (dlookup m.normalized (buildIndex films)).isSome = true := by
  rw [cmi_matches] at hm
  obtain ⟨hsi, hfi⟩ := mem_splitScripts_matches hm
  have h1 : m.normalized = normalize_title m.script := by simpa using buildIndex_norm hsi
  have h2 : (m.normalized, m.film) ∈ buildIndex films := dlookup_eq_some_mem hfi
  have h3 : m.normalized = normalize_title m.film := by simpa using buildIndex_norm h2
  refine ⟨h1, h3, ?_, by simp [hfi]⟩
  exact dlookup_isSome_iff.2 (List.mem_map.2 ⟨_, hsi, rfl⟩)

/-- Claim C9: the number of match records plus the number of unmatched films
equals the size of the film lookup mapping — the film-side counterpart of the
script-side counting identity. -/
theorem C9_film_counting_identity (films scripts : List Str) :
    (create_matching_index films scripts).«matches».length +
        (create_matching_index films scripts).unmatched_films.length =
      (buildIndex films).length := by
  rw [cmi_matches, cmi_unmatched_films]
  set fi := buildIndex films with hfi
  set si := buildIndex scripts with hsi
  have hnf : (fi.map Prod.fst).Nodup := buildIndex_keys_nodup films
  have hns : (si.map Prod.fst).Nodup := buildIndex_keys_nodup scripts
  have hm : (splitScripts fi si).1.length =
      si.countP (fun p => (dlookup p.1 fi).isSome) := matches_length_eq fi si
  have hu : ((fi.filter (fun p => (dlookup p.1 si).isNone)).map Prod.snd).length =
      fi.countP (fun p => (dlookup p.1 si).isNone) := by
    rw [List.length_map, ← List.countP_eq_length_filter]
  rw [hm, hu]
  have hswap : si.countP (fun p => (dlookup p.1 fi).isSome) =
      fi.countP (fun p => (dlookup p.1 si).isSome) := by
    have e1 : si.countP (fun p => (dlookup p.1 fi).isSome) =
        (si.map Prod.fst).countP (fun k => (dlookup k fi).isSome) := by
      rw [List.countP_map]
      rfl
    have e2 : (si.map Prod.fst).countP (fun k => (dlookup k fi).isSome) =
        (si.map Prod.fst).countP (fun k => k ∈ fi.map Prod.fst) := by
      apply List.countP_congr
      intro k hk
      simp [dlookup_isSome_iff]
    have e3 : (fi.map Prod.fst).countP (fun k => (dlookup k si).isSome) =
        (fi.map Prod.fst).countP (fun k => k ∈ si.map Prod.fst) := by
      apply List.countP_congr
      intro k hk
      simp [dlookup_isSome_iff]
    have e4 : fi.countP (fun p => (dlookup p.1 si).isSome) =
        (fi.map Prod.fst).countP (fun k => (dlookup k si).isSome) := by
      rw [List.countP_map]
      rfl
    rw [e1, e2, e4, e3]
    exact countP_mem_comm hns hnf
  rw [hswap]
  have hcompl := List.length_eq_countP_add_countP
    (p := fun p : Str × Str => (dlookup p.1 si).isSome) (l := fi)
  rw [hcompl]
  congr 1
  apply List.countP_congr
  intro p hp
  cases h : dlookup p.1 si <;> simp [h]

/-- Claim C10: the computed match percentage always lies between 0 and 100,
because the match count never exceeds the script count used as denominator. -/
theorem C10_match_percentage_bounds (films scripts : List Str) :
    0 ≤ (create_matching_index films scripts).stats.match_percentage ∧
    (create_matching_index films scripts).stats.match_percentage ≤ 100 := by
  rw [cmi_match_percentage]
  by_cases h : scripts.isEmpty
  · rw [if_pos h]
    norm_num
  · rw [if_neg h]
    have hne : scripts ≠ [] := by simpa using h
    have hlen : 0 < scripts.length := List.length_pos.2 hne
    have hms : (splitScripts (buildIndex films) (buildIndex scripts)).1.length ≤
        scripts.length := by
      have h1 := splitScripts_length (buildIndex films) (buildIndex scripts)
      have h2 := buildIndex_length_le scripts
      omega
    have hq : (0 : ℚ) < (scripts.length : ℚ) := by exact_mod_cast hlen
    constructor
    · positivity
    · have hdiv : ((splitScripts (buildIndex films) (buildIndex scripts)).1.length : ℚ) /
          (scripts.length : ℚ) ≤ 1 := by
        rw [div_le_one hq]
        exact_mod_cast hms
      calc ((splitScripts (buildIndex films) (buildIndex scripts)).1.length : ℚ) /
            (scripts.length : ℚ) * 100 ≤ 1 * 100 :=
          mul_le_mul_of_nonneg_right hdiv (by norm_num)
        _ = 100 := by norm_num

/-- Claim C1 fails as stated: with films `[]` and scripts `["A-1234", "a"]`,
both scripts normalize to `"a"`, the later entry overwrites the earlier in the
script lookup mapping, and the input script identifier `"A-1234"` appears
neither as the script of any match record nor in `unmatched_scripts`. -/
theorem C1_counterexample :
    "A-1234".toList ∈ ["A-1234".toList, "a".toList] ∧
    (create_matching_index [] ["A-1234".toList, "a".toList]).«matches».countP
      (fun m => m.script = "A-1234".toList) = 0 ∧
    (create_matching_index [] ["A-1234".toList, "a".toList]).unmatched_scripts.countP
      (fun s => s = "A-1234".toList) = 0 :=
  ⟨by simp, rfl, rfl⟩

theorem script_entry_classified (films scripts : List Str) {p : Str × Str}
    (hp : p ∈ buildIndex scripts) :
    ((splitScripts (buildIndex films) (buildIndex scripts)).1.countP
        (fun m => m.script = p.2) = 1 ∧
      (splitScripts (buildIndex films) (buildIndex scripts)).2.countP
        (fun s => s = p.2) = 0) ∨
    ((splitScripts (buildIndex films) (buildIndex scripts)).1.countP
        (fun m => m.script = p.2) = 0 ∧
      (splitScripts (buildIndex films) (buildIndex scripts)).2.countP
        (fun s => s = p.2) = 1) := by
  obtain ⟨k₀, v₀⟩ := p
  set fi := buildIndex films with hfi
  set si := buildIndex scripts with hsi
  have hns : (si.map Prod.fst).Nodup := buildIndex_keys_nodup scripts
  have hpairs : si.Nodup := List.Nodup.of_map _ hns
  by_cases hlk : (dlookup k₀ fi).isSome
  · left
    constructor
    · rw [splitScripts_countP_matches]
      rw [List.countP_congr (q := fun r => decide (r = ((k₀, v₀) : Str × Str))) ?_]
      · exact countP_eq_one_of_nodup hpairs hp
      · intro r hr
        cases hdl : dlookup r.1 fi with
        | some f =>
          simp only [hdl, decide_eq_true_eq]
          constructor
          · intro h2
            exact buildIndex_value_unique hp hr h2
          · intro h2
            rw [h2]
        | none =>
          simp only [hdl, decide_eq_true_eq]
          constructor
          · intro h2
            exact absurd h2 (by simp)
          · intro h2
            subst h2
            rw [hdl] at hlk
            simp at hlk
    · rw [splitScripts_countP_unmatched]
      apply List.countP_eq_zero.2
      intro r hr
      simp only [Bool.and_eq_true, decide_eq_true_eq, Option.isNone_iff_eq_none]
      rintro ⟨hnone, hval⟩
      have h2 := buildIndex_value_unique hp hr hval
      subst h2
      rw [hnone] at hlk
      simp at hlk
  · have hnone : dlookup k₀ fi = none := Option.not_isSome_iff_eq_none.1 hlk
    right
    constructor
    · rw [splitScripts_countP_matches]
      apply List.countP_eq_zero.2
      intro r hr
      cases hdl : dlookup r.1 fi with
      | some f =>
        simp only [hdl, decide_eq_true_eq]
        intro h2
        have h3 := buildIndex_value_unique hp hr h2
        subst h3
        rw [hdl] at hnone
        simp at hnone
      | none =>
        simp [hdl]
    · rw [splitScripts_countP_unmatched]
      rw [List.countP_congr (q := fun r => decide (r = ((k₀, v₀) : Str × Str))) ?_]
      · exact countP_eq_one_of_nodup hpairs hp
      · intro r hr
        simp only [Bool.and_eq_true, decide_eq_true_eq, Option.isNone_iff_eq_none]
        constructor
        · rintro ⟨hn, hval⟩
          exact buildIndex_value_unique hp hr hval
        · intro h2
          subst h2
          exact ⟨hnone, rfl⟩

theorem film_entry_classified (films scripts : List Str) {q : Str × Str}
    (hq : q ∈ buildIndex films) :
    ((splitScripts (buildIndex films) (buildIndex scripts)).1.countP
        (fun m => m.film = q.2) = 1 ∧
      (((buildIndex films).filter
          (fun r => (dlookup r.1 (buildIndex scripts)).isNone)).map Prod.snd).countP
        (fun s => s = q.2) = 0) ∨
    ((splitScripts (buildIndex films) (buildIndex scripts)).1.countP
        (fun m => m.film = q.2) = 0 ∧
      (((buildIndex films).filter
          (fun r => (dlookup r.1 (buildIndex scripts)).isNone)).map Prod.snd).countP
        (fun s => s = q.2) = 1) := by
  obtain ⟨k₀, w₀⟩ := q
  set fi := buildIndex films with hfi
  set si := buildIndex scripts with hsi
  have hnf : (fi.map Prod.fst).Nodup := buildIndex_keys_nodup films
  have hns : (si.map Prod.fst).Nodup := buildIndex_keys_nodup scripts
  have hfpairs : fi.Nodup := List.Nodup.of_map _ hnf
  have hk₀ : dlookup k₀ fi = some w₀ := dlookup_eq_some_of_mem hnf hq
  have hmcount : (splitScripts fi si).1.countP (fun m => m.film = w₀) =
      si.countP (fun r => decide (r.1 = k₀)) := by
    rw [splitScripts_countP_matches]
    apply List.countP_congr
    intro r hr
    cases hdl : dlookup r.1 fi with
    | some f =>
      simp only [hdl, decide_eq_true_eq]
      constructor
      · intro h2
        have hmem := dlookup_eq_some_mem hdl
        have h3 : r.1 = normalize_title f := by simpa using buildIndex_norm hmem
        have h4 : k₀ = normalize_title w₀ := by simpa using buildIndex_norm hq
        rw [h3, h2, ← h4]
      · intro h2
        rw [h2] at hdl
        exact Option.some_injective _ (hdl.symm.trans hk₀)
    | none =>
      simp only [hdl, decide_eq_true_eq]
      constructor
      · intro h2
        exact absurd h2 (by simp)
      · intro h2
        rw [h2] at hdl
        exact absurd (hk₀.symm.trans hdl) (by simp)
  have hucount : ((fi.filter (fun r => (dlookup r.1 si).isNone)).map Prod.snd).countP
      (fun s => s = w₀) =
      fi.countP (fun r => decide (r.2 = w₀) && (dlookup r.1 si).isNone) := by
    rw [List.countP_map, List.countP_filter]
    rfl
  have hkeycount : si.countP (fun r => decide (r.1 = k₀)) =
      (si.map Prod.fst).countP (fun k => decide (k = k₀)) := by
    rw [List.countP_map]
    rfl
  by_cases hks : k₀ ∈ si.map Prod.fst
  · left
    constructor
    · rw [hmcount, hkeycount]
      exact countP_eq_one_of_nodup hns hks
    · rw [hucount]
      apply List.countP_eq_zero.2
      intro r hr
      simp only [Bool.and_eq_true, decide_eq_true_eq, Option.isNone_iff_eq_none]
      rintro ⟨hval, hn⟩
      have h2 := buildIndex_value_unique hq hr hval
      subst h2
      rw [← dlookup_isSome_iff, hn] at hks
      simp at hks
  · right
    constructor
    · rw [hmcount, hkeycount]
      apply List.countP_eq_zero.2
      intro k hk
      simp only [decide_eq_true_eq]
      intro h2
      exact hks (h2 ▸ hk)
    · rw [hucount]
      rw [List.countP_congr (q := fun r => decide (r = ((k₀, w₀) : Str × Str))) ?_]
      · exact countP_eq_one_of_nodup hfpairs hq
      · intro r hr
        simp only [Bool.and_eq_true, decide_eq_true_eq, Option.isNone_iff_eq_none]
        constructor
        · rintro ⟨hval, hn⟩
          exact buildIndex_value_unique hq hr hval
        · intro h2
          subst h2
          refine ⟨rfl, ?_⟩
          rw [← dlookup_isSome_iff] at hks
          exact Option.not_isSome_iff_eq_none.1 hks

/-- Claim C1, amended: every script identifier that survives into the script
lookup mapping (the last occurrence of its normalization class) appears either
as the script of exactly one match record or exactly once in
`unmatched_scripts`, never both; likewise every film identifier that survives
into the film lookup mapping, for match records' film fields and
`unmatched_films`.  Identifiers overwritten by a normalization collision
appear in neither place. -/
theorem C1_index_entry_classification (films scripts : List Str) :
    (∀ p ∈ buildIndex scripts,
      ((create_matching_index films scripts).«matches».countP
          (fun m => m.script = p.2) = 1 ∧
        (create_matching_index films scripts).unmatched_scripts.countP
          (fun s => s = p.2) = 0) ∨
      ((create_matching_index films scripts).«matches».countP
          (fun m => m.script = p.2) = 0 ∧
        (create_matching_index films scripts).unmatched_scripts.countP
          (fun s => s = p.2) = 1)) ∧
    (∀ q ∈ buildIndex films,
      ((create_matching_index films scripts).«matches».countP
          (fun m => m.film = q.2) = 1 ∧
        (create_matching_index films scripts).unmatched_films.countP
          (fun s => s = q.2) = 0) ∨
      ((create_matching_index films scripts).«matches».countP
          (fun m => m.film = q.2) = 0 ∧
        (create_matching_index films scripts).unmatched_films.countP
          (fun s => s = q.2) = 1)) := by
  constructor
  · intro p hp
    rw [cmi_matches, cmi_unmatched_scripts]
    exact script_entry_classified films scripts hp
  · intro q hq
    rw [cmi_matches, cmi_unmatched_films]
    exact film_entry_classified films scripts hq

/-- Witness for the amended claim C1 at the concrete Matrix example. -/
theorem C1_classification_witness :
    ((create_matching_index ["Matrix-1999".toList] ["matrix".toList]).«matches».countP
        (fun m => m.script = "matrix".toList) = 1 ∧
      (create_matching_index ["Matrix-1999".toList] ["matrix".toList]).unmatched_scripts.countP
        (fun s => s = "matrix".toList) = 0) ∨
    ((create_matching_index ["Matrix-1999".toList] ["matrix".toList]).«matches».countP
        (fun m => m.script = "matrix".toList) = 0 ∧
      (create_matching_index ["Matrix-1999".toList] ["matrix".toList]).unmatched_scripts.countP
        (fun s => s = "matrix".toList) = 1) :=
  (C1_index_entry_classification ["Matrix-1999".toList] ["matrix".toList]).1
    ("matrix".toList, "matrix".toList) (by decide)

/-- Witness for claim C4 at concrete inputs: empty scripts give percentage 0;
the Matrix example gives the division formula. -/
theorem C4_division_guard_witness :
    (create_matching_index [] []).stats.match_percentage = 0 ∧
    (create_matching_index ["Matrix-1999".toList] ["matrix".toList]).stats.match_percentage =
      ((create_matching_index ["Matrix-1999".toList]
          ["matrix".toList]).stats.matches_found : ℚ) /
        ((create_matching_index ["Matrix-1999".toList]
          ["matrix".toList]).stats.total_scripts : ℚ) * 100 :=
  ⟨(C4_match_percentage_division_guard [] []).1 rfl,
    (C4_match_percentage_division_guard _ _).2 (by simp)⟩

/-- Witness for claim C8 at the match record of the Matrix example. -/
theorem C8_record_consistency_witness :
    ("matrix".toList : Str) = normalize_title "matrix".toList ∧
    ("matrix".toList : Str) = normalize_title "Matrix-1999".toList ∧
    (dlookup "matrix".toList (buildIndex ["matrix".toList])).isSome = true ∧
    (dlookup "matrix".toList (buildIndex ["Matrix-1999".toList])).isSome = true :=
  C8_match_record_consistency ["Matrix-1999".toList] ["matrix".toList]
    ⟨"matrix".toList, "Matrix-1999".toList, "matrix".toList⟩ (by decide)

end Cinema
